import Mathlib

/-!
# Verification of `hcipy/atmosphere/atmospheric_model.py`

A shallow embedding of the atmospheric-model module: the abstract
`AtmosphericLayer`, the `MultiLayerAtmosphere` composite with its cached
propagation chain and dirty flag, and the free statistical / conversion
functions.  Heights, turbulence strengths and wavelengths are modelled as
exact rationals where the code only moves them around, and as real numbers
where the code applies transcendental functions (`**` with fractional
exponents, `exp`).  Grids are opaque tags (`Nat`); a `Field` pairs a list of
sample values with its grid.  Exceptions are modelled with `Except`.
-/

open Real

/-- Grids are external collaborators; we only need their identity. -/
abbrev Grid := Nat

/-- Errors raised by the module: `NotImplementedError` from abstract members
of the base class, and the `ValueError` from `MultiLayerAtmosphere.phase_for`
with scintillation enabled. -/
inductive AtmErr where
  | notImplemented
  | invalidConfig
  | indexError
  deriving DecidableEq

/-- A constructed (concrete-subclass) atmospheric layer.  The base class in
the source is abstract; concrete subclasses live outside the module, so the
per-layer data the composite reads is modelled as record fields.  `phase`
models the subclass-supplied `phase_for(wavelength)`: the returned field
carries the layer's `input_grid` (spec: the phase screen is a field over the
layer's grid). -/
structure Layer where
  input_grid : Grid
  Cn_squared : ℚ
  height : ℚ
  phase : ℚ → List ℚ

instance : Inhabited Layer := ⟨⟨0, 0, 0, fun _ => []⟩⟩

/-- `Modelled from the spec:` the polymorphic `Cn_squared` setter of a
concrete layer subclass (subclasses are outside this module).  The spec says
the setter changes the layer's strength; internal regeneration state is out
of scope, so the setter is value assignment. -/
def Layer.setCnSquared (l : Layer) (v : ℚ) : Layer :=
  { l with Cn_squared := v }

/-- An entry of `MultiLayerAtmosphere.elements`: either one of the layers or
a `FresnelPropagator(grid, distance)` (an external black box, identified by
its constructor arguments). -/
inductive Element where
  | layer (l : Layer)
  | fresnel (grid : Grid) (dist : ℚ)

/-- `heights = np.array([l.height for l in self.layers])`. -/
def heightsOf (layers : List Layer) : List ℚ :=
  layers.map (·.height)

/-- `layer_indices = np.argsort(-heights)`: indices ordered so that the
heights are descending.  (numpy's default quicksort leaves the order of
equal keys unspecified; this model uses insertion sort, which places ties
in input order.) -/
def argsortDescend (heights : List ℚ) : List ℕ :=
  List.insertionSort (fun i j => heights.getD j 0 ≤ heights.getD i 0)
    (List.range heights.length)

/-- The element-building loop of `calculate_propagators`: append each sorted
layer, and after it the next propagator while any remain (`i <
len(propagators)`). -/
def interleaveElems : List Layer → List Element → List Element
  | [], _ => []
  | l :: ls, [] => .layer l :: interleaveElems ls []
  | l :: ls, p :: ps => .layer l :: p :: interleaveElems ls ps

/-- `MultiLayerAtmosphere.calculate_propagators`, the part that computes the
new `elements` list from the layers and the scintillation flag. -/
def calcElements (layers : List Layer) (scint : Bool) : List Element :=
  let heights := heightsOf layers
  let layer_indices := argsortDescend heights
  let sorted_heights := layer_indices.map (fun i => heights.getD i 0)
  let delta_heights := List.zipWith (· - ·) sorted_heights sorted_heights.tail
  let grid := layers.headI.input_grid
  let propagators := if scint then delta_heights.map (Element.fresnel grid) else []
  let main := interleaveElems (layer_indices.map (fun i => layers.getD i default)) propagators
  let trailing :=
    if scint then
      match sorted_heights.getLast? with
      | some h => if 0 < h then [Element.fresnel grid h] else []
      | none => []
    else []
  main ++ trailing

/-- State of a `MultiLayerAtmosphere`: the stored layers, the scintillation
flag, the cached `elements` chain and the `_dirty` flag. -/
structure MLA where
  layers : List Layer
  scintillation : Bool
  dirty : Bool
  elements : List Element

/-- `calculate_propagators` as a state transformer: rebuild `elements` and
clear the dirty flag. -/
def MLA.calculatePropagators (s : MLA) : MLA :=
  { s with elements := calcElements s.layers s.scintillation, dirty := false }

/-- The `layers` setter: store the new list and set the dirty flag. -/
def MLA.setLayers (s : MLA) (ls : List Layer) : MLA :=
  { s with layers := ls, dirty := true }

/-- The `scintillation` setter: `self._dirty = scintillation !=
self.scintillation` (an unconditional assignment), then store the flag. -/
def MLA.setScintillation (s : MLA) (b : Bool) : MLA :=
  { s with dirty := b != s.scintillation, scintillation := b }

/-- `MultiLayerAtmosphere.__init__` after the keyword handling: assign
`layers` (through the setter, marking dirty), store the flag, mark dirty,
then build the chain. -/
def MLA.init (layers : List Layer) (scintillation : Bool) : MLA :=
  MLA.calculatePropagators
    { layers := layers, scintillation := scintillation, dirty := true,
      elements := [] }

/-- `forward`/`backward` state handling: `if self._dirty:
self.calculate_propagators()`. -/
def MLA.refreshIfDirty (s : MLA) : MLA :=
  if s.dirty then s.calculatePropagators else s

/-- `MultiLayerAtmosphere.__init__` including the keyword handling: if the
legacy misspelled keyword is not `None`, a deprecation warning is emitted
and its value replaces the correctly-spelled one. -/
structure InitOutcome where
  warned : Bool
  state : MLA

/-- The constructor with both keywords.  `none` models the Python default
`scintilation=None` (argument not supplied). -/
def MLA.initKw (layers : List Layer) (scintillation : Bool)
    (scintilation : Option Bool) : InitOutcome :=
  match scintilation with
  | some legacy => ⟨true, MLA.init layers legacy⟩
  | none => ⟨false, MLA.init layers scintillation⟩

/-- The total `Cn_squared` of the atmosphere: `np.sum([l.Cn_squared for l in
self.layers])`. -/
def MLA.CnSquared (s : MLA) : ℚ :=
  (s.layers.map (·.Cn_squared)).sum

/-- The aggregate `Cn_squared` setter: read the old total once, then
redistribute `l.Cn_squared / old_Cn_squared * Cn_squared` to every layer. -/
def MLA.setCnSquared (s : MLA) (v : ℚ) : MLA :=
  let old := s.CnSquared
  { s with layers := s.layers.map fun l => l.setCnSquared (l.Cn_squared / old * v) }

/-- A field: sample values paired with the grid they live on. -/
structure AField where
  values : List ℚ
  grid : Grid

/-- `np.sum(unwrapped_phases, axis=0)`: the elementwise sum of a list of
equal-length value lists. -/
def sumFields : List (List ℚ) → List ℚ
  | [] => []
  | [x] => x
  | x :: xs => List.zipWith (· + ·) x (sumFields xs)

/-- `MultiLayerAtmosphere.phase_for`: raise `ValueError` when scintillation
is on; otherwise sum the per-layer phase screens and return them on the grid
of the last screen (`unwrapped_phases[-1]`; an empty layer list is an index
error there). -/
def MLA.phaseFor (s : MLA) (lam : ℚ) : Except AtmErr AField :=
  if s.scintillation then .error .invalidConfig
  else
    let unwrapped := s.layers.map fun l => (⟨l.phase lam, l.input_grid⟩ : AField)
    match unwrapped.getLast? with
    | none => .error .indexError
    | some last => .ok ⟨sumFields (unwrapped.map (·.values)), last.grid⟩

/-- A wavefront: a complex electric field sampled on a grid, at a
wavelength. -/
structure Wavefront where
  electric_field : List ℂ
  wavelength : ℚ

/-- `AtmosphericLayer.forward`: copy the wavefront and multiply its field
elementwise by `np.exp(1j * self.phase_for(wf.wavelength))`. -/
noncomputable def Layer.forward (l : Layer) (wf : Wavefront) : Wavefront :=
  { wf with
    electric_field :=
      List.zipWith (fun (e : ℂ) (ph : ℚ) => e * Complex.exp (Complex.I * (ph : ℂ)))
        wf.electric_field
        (l.phase wf.wavelength) }

/-- `AtmosphericLayer.backward`: copy the wavefront and multiply its field
elementwise by `np.exp(-1j * self.phase_for(wf.wavelength))`. -/
noncomputable def Layer.backward (l : Layer) (wf : Wavefront) : Wavefront :=
  { wf with
    electric_field :=
      List.zipWith (fun (e : ℂ) (ph : ℚ) => e * Complex.exp (-Complex.I * (ph : ℂ)))
        wf.electric_field
        (l.phase wf.wavelength) }

/-- `MultiLayerAtmosphere.forward`: rebuild the chain if dirty, then apply
every element of `elements` in order to a copy of the wavefront.  The
Fresnel propagator is an external collaborator, passed in as `fresF`. -/
noncomputable def MLA.forward (fresF : Grid → ℚ → Wavefront → Wavefront)
    (s : MLA) (wf : Wavefront) : MLA × Wavefront :=
  let s2 := s.refreshIfDirty
  (s2, s2.elements.foldl
    (fun w e => match e with
      | .layer l => l.forward w
      | .fresnel g d => fresF g d w) wf)

/-- `MultiLayerAtmosphere.backward`: rebuild the chain if dirty, then apply
the backward operation of every element in reverse order. -/
noncomputable def MLA.backward (fresB : Grid → ℚ → Wavefront → Wavefront)
    (s : MLA) (wf : Wavefront) : MLA × Wavefront :=
  let s2 := s.refreshIfDirty
  (s2, s2.elements.reverse.foldl
    (fun w e => match e with
      | .layer l => l.backward w
      | .fresnel g d => fresB g d w) wf)

/-- The abstract `Cn_squared` setter of the base class `AtmosphericLayer`:
`raise NotImplementedError()`. -/
def AtmosphericLayer.setCnSquaredBase (v : Option ℚ) : Except AtmErr Unit :=
  .error .notImplemented

/-- The abstract `outer_scale` setter of the base class:
`raise NotImplementedError()`. -/
def AtmosphericLayer.setOuterScaleBase (L0 : ℝ) : Except AtmErr Unit :=
  .error .notImplemented

/-- The `L0` setter of the base class: a pure alias that assigns through the
`outer_scale` setter. -/
def AtmosphericLayer.setL0Base (L0 : ℝ) : Except AtmErr Unit :=
  AtmosphericLayer.setOuterScaleBase L0

/-- The `velocity` setter: a scalar becomes the vector `[v, 0]`, a vector is
stored as given. -/
def AtmosphericLayer.setVelocity (v : ℚ ⊕ (ℚ × ℚ)) : ℚ × ℚ :=
  match v with
  | .inl x => (x, 0)
  | .inr p => p

/-- `AtmosphericLayer.__init__` of the abstract base class, as the sequence
of assignments the source performs: the plain attribute `input_grid`
succeeds, then `self.Cn_squared = Cn_squared` goes through the abstract
setter and raises; the remaining assignments (`L0`, `velocity`, `height`,
`t`) would only run after it. -/
def AtmosphericLayer.init (input_grid : Grid) (Cn_squared : Option ℚ)
    (L0 : ℝ) (velocity : ℚ ⊕ (ℚ × ℚ)) (height : ℚ) : Except AtmErr Unit := do
  AtmosphericLayer.setCnSquaredBase Cn_squared
  AtmosphericLayer.setL0Base L0
  let _ := AtmosphericLayer.setVelocity velocity
  let _ := height
  let _ := input_grid
  .ok ()

/-- `np.radians`: degrees to radians. -/
noncomputable def radiansOf (x : ℝ) : ℝ := x * π / 180

/-- `np.degrees`: radians to degrees. -/
noncomputable def degreesOf (x : ℝ) : ℝ := x * 180 / π

/-- `Cn_squared_from_fried_parameter(r0, wavelength)`:
`r0**(-5/3) / (0.423 * k**2)` with `k = 2*pi/wavelength`. -/
noncomputable def Cn_squared_from_fried_parameter (r0 wavelength : ℝ) : ℝ :=
  let k := 2 * π / wavelength
  r0 ^ (-(5 : ℝ) / 3) / (0.423 * k ^ 2)

/-- `fried_parameter_from_Cn_squared(Cn_squared, wavelength)`:
`(0.423 * Cn_squared * k**2)**(-3/5)` with `k = 2*pi/wavelength`. -/
noncomputable def fried_parameter_from_Cn_squared (Cn_squared wavelength : ℝ) : ℝ :=
  let k := 2 * π / wavelength
  (0.423 * Cn_squared * k ^ 2) ^ (-(3 : ℝ) / 5)

/-- `seeing_to_fried_parameter(seeing, wavelength)`:
`0.98 * wavelength / np.radians(seeing / 3600)`. -/
noncomputable def seeing_to_fried_parameter (seeing wavelength : ℝ) : ℝ :=
  0.98 * wavelength / radiansOf (seeing / 3600)

/-- `fried_parameter_to_seeing(r0, wavelength)`:
`np.degrees(0.98 * wavelength / r0) * 3600`. -/
noncomputable def fried_parameter_to_seeing (r0 wavelength : ℝ) : ℝ :=
  degreesOf (0.98 * wavelength / r0) * 3600

/-- The value of the Von Karman power spectral density at one grid point
with polar radial coordinate `r`: `u = r + 1e-10`, `u0 = 2*pi/L0`, and the
result is overwritten by 0 where `u < 1e-9` (the masking `res[u < 1e-9] = 0`
acts pointwise). -/
noncomputable def psdPoint (r0 L0 : ℝ) (r : ℝ) : ℝ :=
  let u := r + 1e-10
  let u0 := 2 * π / L0
  if u < 1e-9 then 0
  else 0.0229 * ((u ^ 2 + u0 ^ 2) / (2 * π) ^ 2) ^ (-(11 : ℝ) / 6) * r0 ^ (-(5 : ℝ) / 3)

/-- The generator returned by `power_spectral_density_von_karman(r0, L0)`,
applied to a grid given by the polar radial coordinates of its points. -/
noncomputable def power_spectral_density_von_karman (r0 L0 : ℝ)
    (gridR : List ℝ) : List ℝ :=
  gridR.map (psdPoint r0 L0)

/-- The interleaving described by the specification: each altitude-sorted
layer followed by a propagator over the height difference to the next sorted
layer. -/
def specInterleave (grid : Grid) : List Layer → List Element
  | [] => []
  | [l] => [.layer l]
  | l :: l2 :: ls =>
      .layer l :: .fresnel grid (l.height - l2.height) :: specInterleave grid (l2 :: ls)

/-- The `elements` list described by the specification, given the layers
already in altitude-descending order: with scintillation the interleaving
plus a trailing propagator exactly when the lowest height is positive,
without scintillation just the sorted layers. -/
def specElements (grid : Grid) (sorted : List Layer) (scint : Bool) : List Element :=
  if scint then
    specInterleave grid sorted ++
      (if 0 < (sorted.getLastD default).height then
        [Element.fresnel grid (sorted.getLastD default).height]
      else [])
  else sorted.map Element.layer

/-! ## Helper lemmas -/

theorem heightsOf_getD (layers : List Layer) (i : ℕ) :
    (heightsOf layers).getD i 0 = (layers.getD i default).height := by
  by_cases h : i < layers.length
  · have h2 : i < (heightsOf layers).length := by simpa [heightsOf] using h
    rw [List.getD_eq_getElem _ _ h2, List.getD_eq_getElem _ _ h]
    simp [heightsOf]
  · have h2 : ¬ i < (heightsOf layers).length := by simpa [heightsOf] using h
    rw [List.getD_eq_default _ _ (by omega), List.getD_eq_default _ _ (by omega)]
    rfl

theorem interleaveElems_nil_props (ls : List Layer) :
    interleaveElems ls [] = ls.map Element.layer := by
  induction ls with
  | nil => rfl
  | cons l ls ih => simp [interleaveElems, ih]

theorem interleaveElems_deltas (grid : Grid) :
    ∀ ls : List Layer,
      interleaveElems ls
        ((List.zipWith (· - ·) (ls.map (·.height)) (ls.map (·.height)).tail).map
          (Element.fresnel grid))
        = specInterleave grid ls
  | [] => rfl
  | [l] => rfl
  | l :: l2 :: ls => by
      have ih := interleaveElems_deltas grid (l2 :: ls)
      simp only [List.map_cons, List.tail_cons, List.zipWith_cons_cons] at ih ⊢
      simp [interleaveElems, specInterleave, ih]

/-! ## Theorems for the claims -/

/-- Claim C10: the base class `AtmosphericLayer` can never be successfully
instantiated: its constructor assigns `Cn_squared` (and then `L0`) through
the abstract property setters, which unconditionally raise
`NotImplementedError`, so direct construction raises for every argument
combination. -/
theorem base_layer_init_raises (g : Grid) (cn : Option ℚ) (L0 : ℝ)
    (v : ℚ ⊕ (ℚ × ℚ)) (h : ℚ) :
    AtmosphericLayer.init g cn L0 v h = .error .notImplemented := rfl

/-- Claim C8: supplying the legacy misspelled scintillation keyword emits a
(non-fatal) deprecation warning and its value wins; with only the correct
keyword no warning is emitted and the supplied value is used.  Construction
always completes with a freshly built chain (`dirty = false`). -/
theorem init_legacy_keyword (layers : List Layer) (sc : Bool) (legacy : Option Bool) :
    (MLA.initKw layers sc legacy).warned = legacy.isSome ∧
    (MLA.initKw layers sc legacy).state = MLA.init layers (legacy.getD sc) ∧
    (MLA.initKw layers sc legacy).state.scintillation = legacy.getD sc ∧
    (MLA.initKw layers sc legacy).state.dirty = false := by
  cases legacy <;>
    simp [MLA.initKw, MLA.init, MLA.calculatePropagators]

/-- A concrete layer at height 1. -/
def layerA : Layer := ⟨0, 1, 1, fun _ => []⟩

/-- A concrete layer at height 2. -/
def layerB : Layer := ⟨0, 1, 2, fun _ => []⟩

/-- Claim C2 (code bug): the `scintillation` setter executes `self._dirty =
scintillation != self.scintillation`, an unconditional assignment.  At the
failing input — construct with one layer, reassign `layers` (dirty becomes
true), then assign `scintillation` its current value — the dirty flag is
cleared although no rebuild has happened: the stored layers are the new
list, while the cached `elements` still hold the old layer. -/
theorem scintillation_setter_clears_dirty :
    ((((MLA.init [layerA] false).setLayers [layerB]).setScintillation false).dirty = false) ∧
    ((((MLA.init [layerA] false).setLayers [layerB]).setScintillation false).layers = [layerB]) ∧
    ((((MLA.init [layerA] false).setLayers [layerB]).setScintillation false).elements
      = [Element.layer layerA]) :=
  ⟨rfl, rfl, rfl⟩

/-- Claim C3: setting the aggregate `Cn_squared` to `X` when the old total
`T` is positive gives every layer the strength `old / T * X`, and the
aggregate getter (the sum over layers) then returns exactly `X`. -/
theorem cn_squared_redistribution (s : MLA) (X : ℚ) (hT : 0 < s.CnSquared) :
    (s.setCnSquared X).layers.map (·.Cn_squared)
        = s.layers.map (fun l => l.Cn_squared / s.CnSquared * X) ∧
    (s.setCnSquared X).CnSquared = X := by
  have hne : s.CnSquared ≠ 0 := ne_of_gt hT
  constructor
  · simp [MLA.setCnSquared, Layer.setCnSquared]
  · have hmap : (s.setCnSquared X).layers.map (·.Cn_squared)
        = s.layers.map (fun l => l.Cn_squared * (X / s.CnSquared)) := by
      simp only [MLA.setCnSquared, Layer.setCnSquared]
      simp only [List.map_map]
      refine List.map_congr_left fun l _ => ?_
      show l.Cn_squared / s.CnSquared * X = l.Cn_squared * (X / s.CnSquared)
      ring
    rw [MLA.CnSquared, hmap, List.sum_map_mul_right]
    rw [show (s.layers.map fun l => l.Cn_squared).sum = s.CnSquared from rfl]
    rw [mul_comm, div_mul_cancel₀ _ hne]

/-- A concrete layer of strength 2. -/
def layerC : Layer := ⟨0, 2, 0, fun _ => []⟩

/-- Witness for C3 at a one-layer atmosphere of strength 2 and `X = 5`. -/
theorem cn_squared_redistribution_witness :
    (0 < (MLA.init [layerC] false).CnSquared) ∧
    (((MLA.init [layerC] false).setCnSquared 5).layers.map (·.Cn_squared)
        = (MLA.init [layerC] false).layers.map
            (fun l => l.Cn_squared / (MLA.init [layerC] false).CnSquared * 5) ∧
      ((MLA.init [layerC] false).setCnSquared 5).CnSquared = 5) :=
  ⟨by norm_num [MLA.CnSquared, MLA.init, MLA.calculatePropagators, layerC],
    cn_squared_redistribution (MLA.init [layerC] false) 5
      (by norm_num [MLA.CnSquared, MLA.init, MLA.calculatePropagators, layerC])⟩
/-- Claim C5: the strength conversions are mutual inverses: converting a
positive Fried parameter to integrated `Cn_squared` and back returns it
exactly, and likewise seeing to Fried parameter and back, for any positive
wavelength.  (Real-number model; the code's floating-point tolerance is the
reason the identities are only claimed up to tolerance there.) -/
theorem conversion_round_trip (r0 s lam : ℝ) (hr0 : 0 < r0) (hs : 0 < s)
    (hlam : 0 < lam) :
    fried_parameter_from_Cn_squared (Cn_squared_from_fried_parameter r0 lam) lam = r0 ∧
    fried_parameter_to_seeing (seeing_to_fried_parameter s lam) lam = s := by
  have hpi : (0 : ℝ) < π := Real.pi_pos
  have hlam0 : lam ≠ 0 := ne_of_gt hlam
  have hs0 : s ≠ 0 := ne_of_gt hs
  have hpi0 : π ≠ 0 := ne_of_gt hpi
  constructor
  · simp only [fried_parameter_from_Cn_squared, Cn_squared_from_fried_parameter]
    have hk : (2 * π / lam) ≠ 0 := by positivity
    have h1 : 0.423 * (r0 ^ (-(5 : ℝ) / 3) / (0.423 * (2 * π / lam) ^ 2))
        * (2 * π / lam) ^ 2 = r0 ^ (-(5 : ℝ) / 3) := by
      field_simp
      ring
    rw [h1, ← Real.rpow_mul hr0.le]
    norm_num
  · simp only [fried_parameter_to_seeing, seeing_to_fried_parameter, radiansOf,
      degreesOf]
    field_simp
    ring

/-- Witness for C5 at `r0 = 1`, `s = 1`, wavelength `1`. -/
theorem conversion_round_trip_witness :
    ((0 : ℝ) < 1 ∧ (0 : ℝ) < 1 ∧ (0 : ℝ) < 1) ∧
    (fried_parameter_from_Cn_squared (Cn_squared_from_fried_parameter 1 1) 1 = 1 ∧
      fried_parameter_to_seeing (seeing_to_fried_parameter 1 1) 1 = 1) :=
  ⟨⟨by norm_num, by norm_num, by norm_num⟩,
    conversion_round_trip 1 1 1 (by norm_num) (by norm_num) (by norm_num)⟩

/-- The zero set of `psdPoint`: with positive `r0` and `L0`, the result is 0
exactly where `r + 1e-10 < 1e-9`, i.e. where `r < 9e-10`; elsewhere it is
the Von Karman formula evaluated at `u = r + 1e-10`, which is positive. -/
theorem psdPoint_eq_zero_iff (r0 L0 r : ℝ) (hr0 : 0 < r0) (hL0 : 0 < L0) :
    (psdPoint r0 L0 r = 0 ↔ r < 9e-10) ∧
    (9e-10 ≤ r →
      psdPoint r0 L0 r
        = 0.0229 * (((r + 1e-10) ^ 2 + (2 * π / L0) ^ 2) / (2 * π) ^ 2)
            ^ (-(11 : ℝ) / 6) * r0 ^ (-(5 : ℝ) / 3)) := by
  have hpi : (0 : ℝ) < π := Real.pi_pos
  have hpos : 0 < 0.0229 * (((r + 1e-10) ^ 2 + (2 * π / L0) ^ 2) / (2 * π) ^ 2)
      ^ (-(11 : ℝ) / 6) * r0 ^ (-(5 : ℝ) / 3) := by
    have hbase : 0 < ((r + 1e-10) ^ 2 + (2 * π / L0) ^ 2) / (2 * π) ^ 2 := by
      positivity
    positivity
  have hiff : r + 1e-10 < 1e-9 ↔ r < 9e-10 := by
    constructor <;> intro h <;> nlinarith
  constructor
  · by_cases hc : r + 1e-10 < 1e-9
    · simp [psdPoint, if_pos hc, hiff.mp hc]
    · rw [psdPoint]
      simp only [if_neg hc]
      constructor
      · intro h0
        exact absurd h0 (ne_of_gt hpos)
      · intro h9
        exact absurd (hiff.mpr h9) hc
  · intro h9
    have hc : ¬ (r + 1e-10 < 1e-9) := by
      intro hlt
      have := hiff.mp hlt
      linarith
    rw [psdPoint]
    simp only [if_neg hc]

/-- Counterexample for C7 as stated: the grid point `r = 9e-10` has radial
coordinate strictly below `1e-9`, yet the power spectral density there is
not 0 (the mask tests `u = r + 1e-10 < 1e-9`, i.e. `r < 9e-10`). -/
theorem psd_threshold_counterexample :
    (9e-10 : ℝ) < 1e-9 ∧
    (power_spectral_density_von_karman 1 1 [(9e-10 : ℝ)]).getD 0 0 ≠ 0 := by
  constructor
  · norm_num
  · have h : (power_spectral_density_von_karman 1 1 [(9e-10 : ℝ)]).getD 0 0
        = psdPoint 1 1 9e-10 := by
      simp [power_spectral_density_von_karman]
    rw [h]
    intro h0
    have h2 := ((psdPoint_eq_zero_iff 1 1 9e-10 (by norm_num) (by norm_num)).1).mp h0
    norm_num at h2

/-- Claim C7, amended: for positive `r0` and `L0`, the power spectral
density at a grid point is 0 exactly when its radial coordinate `r`
satisfies `r + 1e-10 < 1e-9` (equivalently `r < 9e-10`), and elsewhere
equals the Von Karman formula evaluated at `u = r + 1e-10`. -/
theorem psd_zero_iff_on_grid (r0 L0 : ℝ) (gridR : List ℝ) (i : ℕ)
    (hi : i < gridR.length) (hr0 : 0 < r0) (hL0 : 0 < L0) :
    ((power_spectral_density_von_karman r0 L0 gridR).getD i 0 = 0
        ↔ gridR.getD i 0 < 9e-10) ∧
    (9e-10 ≤ gridR.getD i 0 →
      (power_spectral_density_von_karman r0 L0 gridR).getD i 0
        = 0.0229 * (((gridR.getD i 0 + 1e-10) ^ 2 + (2 * π / L0) ^ 2) / (2 * π) ^ 2)
            ^ (-(11 : ℝ) / 6) * r0 ^ (-(5 : ℝ) / 3)) := by
  have hm : i < (power_spectral_density_von_karman r0 L0 gridR).length := by
    simpa [power_spectral_density_von_karman] using hi
  have hval : (power_spectral_density_von_karman r0 L0 gridR).getD i 0
      = psdPoint r0 L0 (gridR.getD i 0) := by
    rw [List.getD_eq_getElem _ _ hm, List.getD_eq_getElem _ _ hi]
    simp [power_spectral_density_von_karman]
  rw [hval]
  exact psdPoint_eq_zero_iff r0 L0 _ hr0 hL0

/-- Witness for the amended C7: at `r0 = L0 = 1` on the one-point grid
`[0]`, the density is 0 at index 0 (since `0 < 9e-10`). -/
theorem psd_zero_iff_on_grid_witness :
    (0 < ([(0 : ℝ)]).length ∧ (0 : ℝ) < 1 ∧ (0 : ℝ) < 1) ∧
    (((power_spectral_density_von_karman 1 1 [(0 : ℝ)]).getD 0 0 = 0
        ↔ ([(0 : ℝ)]).getD 0 0 < 9e-10) ∧
      (9e-10 ≤ ([(0 : ℝ)]).getD 0 0 →
        (power_spectral_density_von_karman 1 1 [(0 : ℝ)]).getD 0 0
          = 0.0229 * (((([(0 : ℝ)]).getD 0 0 + 1e-10) ^ 2 + (2 * π / 1) ^ 2)
              / (2 * π) ^ 2) ^ (-(11 : ℝ) / 6) * (1 : ℝ) ^ (-(5 : ℝ) / 3))) :=
  ⟨⟨by norm_num, by norm_num, by norm_num⟩,
    psd_zero_iff_on_grid 1 1 [(0 : ℝ)] 0 (by norm_num) (by norm_num) (by norm_num)⟩

/-- Claim C6: `AtmosphericLayer.forward` returns a (copied) wavefront whose
electric field is the input field multiplied elementwise by
`exp(+i * phase)`, and `backward` multiplies by `exp(-i * phase)`, both at
`phase_for(wf.wavelength)`; the wavelength is untouched, and the input
wavefront itself is unchanged (the operations act on a copy). -/
theorem layer_forward_backward_multiply (l : Layer) (wf : Wavefront) (i : ℕ)
    (hi : i < wf.electric_field.length)
    (hlen : (l.phase wf.wavelength).length = wf.electric_field.length) :
    ((l.forward wf).electric_field.getD i 0
        = wf.electric_field.getD i 0
            * Complex.exp (Complex.I * ((l.phase wf.wavelength).getD i 0 : ℚ))) ∧
    ((l.backward wf).electric_field.getD i 0
        = wf.electric_field.getD i 0
            * Complex.exp (-Complex.I * ((l.phase wf.wavelength).getD i 0 : ℚ))) ∧
    (l.forward wf).wavelength = wf.wavelength ∧
    (l.backward wf).wavelength = wf.wavelength := by
  have hp : i < (l.phase wf.wavelength).length := by omega
  have hz1 : i < (List.zipWith (fun (e : ℂ) (ph : ℚ) => e * Complex.exp (Complex.I * (ph : ℂ)))
      wf.electric_field (l.phase wf.wavelength)).length := by
    rw [List.length_zipWith]
    omega
  have hz2 : i < (List.zipWith (fun (e : ℂ) (ph : ℚ) => e * Complex.exp (-Complex.I * (ph : ℂ)))
      wf.electric_field (l.phase wf.wavelength)).length := by
    rw [List.length_zipWith]
    omega
  refine ⟨?_, ?_, rfl, rfl⟩
  · show (List.zipWith (fun (e : ℂ) (ph : ℚ) => e * Complex.exp (Complex.I * (ph : ℂ)))
        wf.electric_field (l.phase wf.wavelength)).getD i 0 = _
    rw [List.getD_eq_getElem _ _ hz1, List.getD_eq_getElem _ _ hi,
      List.getD_eq_getElem _ _ hp]
    exact List.getElem_zipWith
  · show (List.zipWith (fun (e : ℂ) (ph : ℚ) => e * Complex.exp (-Complex.I * (ph : ℂ)))
        wf.electric_field (l.phase wf.wavelength)).getD i 0 = _
    rw [List.getD_eq_getElem _ _ hz2, List.getD_eq_getElem _ _ hi,
      List.getD_eq_getElem _ _ hp]
    exact List.getElem_zipWith

/-- A concrete layer with constant phase screen `[2]`. -/
def layerD : Layer := ⟨0, 1, 0, fun _ => [2]⟩

/-- A concrete one-sample wavefront. -/
def wfD : Wavefront := ⟨[3], 1⟩

/-- Witness for C6 at the one-sample wavefront and layer above, index 0. -/
theorem layer_forward_backward_multiply_witness :
    (0 < wfD.electric_field.length ∧
      (layerD.phase wfD.wavelength).length = wfD.electric_field.length) ∧
    (((layerD.forward wfD).electric_field.getD 0 0
        = wfD.electric_field.getD 0 0
            * Complex.exp (Complex.I * ((layerD.phase wfD.wavelength).getD 0 0 : ℚ))) ∧
      ((layerD.backward wfD).electric_field.getD 0 0
        = wfD.electric_field.getD 0 0
            * Complex.exp (-Complex.I * ((layerD.phase wfD.wavelength).getD 0 0 : ℚ))) ∧
      (layerD.forward wfD).wavelength = wfD.wavelength ∧
      (layerD.backward wfD).wavelength = wfD.wavelength) :=
  ⟨⟨by simp [wfD], by simp [layerD, wfD]⟩,
    layer_forward_backward_multiply layerD wfD 0 (by simp [wfD]) (by simp [layerD, wfD])⟩

theorem sumFields_length (n : ℕ) (xs : List (List ℚ)) (hne : xs ≠ [])
    (hlen : ∀ x ∈ xs, x.length = n) : (sumFields xs).length = n := by
  induction xs with
  | nil => cases hne rfl
  | cons x xs ih =>
    cases xs with
    | nil => simpa [sumFields] using hlen x (by simp)
    | cons y ys =>
      have hx : x.length = n := hlen x (by simp)
      have ih2 := ih (by simp) (fun z hz => hlen z (List.mem_cons_of_mem x hz))
      simp [sumFields, List.length_zipWith, hx, ih2]

theorem sumFields_getD (n : ℕ) (xs : List (List ℚ)) (hne : xs ≠ [])
    (hlen : ∀ x ∈ xs, x.length = n) (i : ℕ) (hi : i < n) :
    (sumFields xs).getD i 0 = (xs.map fun x => x.getD i 0).sum := by
  induction xs with
  | nil => cases hne rfl
  | cons x xs ih =>
    cases xs with
    | nil => simp [sumFields]
    | cons y ys =>
      have hx : x.length = n := hlen x (by simp)
      have hrest : (sumFields (y :: ys)).length = n :=
        sumFields_length n (y :: ys) (by simp)
          (fun z hz => hlen z (List.mem_cons_of_mem x hz))
      have ih2 := ih (by simp) (fun z hz => hlen z (List.mem_cons_of_mem x hz))
      have hzi : i < (List.zipWith (· + ·) x (sumFields (y :: ys))).length := by
        rw [List.length_zipWith, hx, hrest]
        omega
      have hxi : i < x.length := by omega
      have hsi : i < (sumFields (y :: ys)).length := by omega
      have hstep : sumFields (x :: y :: ys)
          = List.zipWith (· + ·) x (sumFields (y :: ys)) := rfl
      rw [hstep, List.getD_eq_getElem _ _ hzi, List.getElem_zipWith,
        List.map_cons, List.sum_cons, ← ih2,
        List.getD_eq_getElem _ _ hxi, List.getD_eq_getElem _ _ hsi]

/-- Claim C4: `phase_for(wavelength)` on the composite raises the
invalid-configuration error exactly when scintillation is enabled; with
scintillation disabled and a non-empty layer list of screens of equal
length, it returns the elementwise sum of all layers' phase screens, on the
grid of the last layer. -/
theorem phase_for_sum_or_error (s : MLA) (lam : ℚ) (n : ℕ)
    (hne : s.layers ≠ [])
    (hlen : ∀ l ∈ s.layers, (l.phase lam).length = n) :
    (s.scintillation = true → s.phaseFor lam = .error .invalidConfig) ∧
    (s.scintillation = false →
      ∃ v : List ℚ,
        s.phaseFor lam = .ok ⟨v, (s.layers.getLast hne).input_grid⟩ ∧
        v.length = n ∧
        ∀ i < n, v.getD i 0 = (s.layers.map fun l => (l.phase lam).getD i 0).sum) := by
  constructor
  · intro hsc
    simp [MLA.phaseFor, hsc]
  · intro hsc
    have hmaps : (s.layers.map fun l => (⟨l.phase lam, l.input_grid⟩ : AField)) ≠ [] := by
      simpa using hne
    have hlast : (s.layers.map fun l => (⟨l.phase lam, l.input_grid⟩ : AField)).getLast?
        = some ⟨(s.layers.getLast hne).phase lam, (s.layers.getLast hne).input_grid⟩ := by
      rw [List.getLast?_map, List.getLast?_eq_getLast _ hne]
      rfl
    refine ⟨sumFields ((s.layers.map fun l =>
        (⟨l.phase lam, l.input_grid⟩ : AField)).map (·.values)), ?_, ?_, ?_⟩
    · simp only [MLA.phaseFor, hsc, Bool.false_eq_true, if_false]
      rw [hlast]
    · rw [show ((s.layers.map fun l => (⟨l.phase lam, l.input_grid⟩ : AField)).map
          (·.values)) = s.layers.map fun l => l.phase lam from by
        simp]
      exact sumFields_length n _ (by simpa using hne)
        (by intro x hx; obtain ⟨l, hl, rfl⟩ := List.mem_map.mp hx; exact hlen l hl)
    · intro i hi
      rw [show ((s.layers.map fun l => (⟨l.phase lam, l.input_grid⟩ : AField)).map
          (·.values)) = s.layers.map fun l => l.phase lam from by
        simp]
      rw [sumFields_getD n _ (by simpa using hne)
        (by intro x hx; obtain ⟨l, hl, rfl⟩ := List.mem_map.mp hx; exact hlen l hl) i hi]
      rw [List.map_map]
      rfl

/-- A concrete layer with phase screen `[1, 2]` on grid 0. -/
def layerE : Layer := ⟨0, 1, 0, fun _ => [1, 2]⟩

/-- A concrete layer with phase screen `[10, 20]` on grid 1. -/
def layerF : Layer := ⟨1, 1, 0, fun _ => [10, 20]⟩

/-- A two-layer atmosphere without scintillation. -/
def mlaEF : MLA := MLA.init [layerE, layerF] false

theorem mlaEF_layers_ne : mlaEF.layers ≠ [] := by
  simp [mlaEF, MLA.init, MLA.calculatePropagators]

theorem mlaEF_phase_len : ∀ l ∈ mlaEF.layers, (l.phase 1).length = 2 := by
  intro l hl
  have hEq : mlaEF.layers = [layerE, layerF] := rfl
  rw [hEq] at hl
  rcases List.mem_cons.mp hl with h | h
  · subst h; rfl
  · rcases List.mem_cons.mp h with h2 | h2
    · subst h2; rfl
    · exact absurd h2 (List.not_mem_nil l)

/-- Witness for C4 on the two-layer atmosphere above at wavelength 1. -/
theorem phase_for_sum_or_error_witness :
    (mlaEF.layers ≠ [] ∧ ∀ l ∈ mlaEF.layers, (l.phase 1).length = 2) ∧
    ((mlaEF.scintillation = true → mlaEF.phaseFor 1 = .error .invalidConfig) ∧
      (mlaEF.scintillation = false →
        ∃ v : List ℚ,
          mlaEF.phaseFor 1 = .ok ⟨v, (mlaEF.layers.getLast mlaEF_layers_ne).input_grid⟩ ∧
          v.length = 2 ∧
          ∀ i < 2, v.getD i 0 = (mlaEF.layers.map fun l => (l.phase 1).getD i 0).sum)) :=
  ⟨⟨mlaEF_layers_ne, mlaEF_phase_len⟩,
    phase_for_sum_or_error mlaEF 1 2 mlaEF_layers_ne mlaEF_phase_len⟩

/-- Claim C1: for a non-empty layer list, `calculate_propagators` produces
`elements` in an altitude-descending order: some permutation `idx` of the
layer indices along which heights are descending, with (scintillation on)
each sorted layer followed by a propagator over the height difference to the
next sorted layer, all propagators on the first layer's grid, and a final
trailing propagator of the lowest sorted height exactly when that height is
strictly positive; with scintillation off, `elements` is just the sorted
layers. -/
theorem calculate_propagators_chain (layers : List Layer) (scint : Bool)
    (hne : layers ≠ []) :
    ∃ idx : List ℕ,
      idx.Perm (List.range layers.length) ∧
      List.Sorted (· ≥ ·) (idx.map fun i => (layers.getD i default).height) ∧
      calcElements layers scint
        = specElements layers.headI.input_grid
            (idx.map fun i => layers.getD i default) scint := by
  have hlen : (heightsOf layers).length = layers.length := by simp [heightsOf]
  have hperm : (argsortDescend (heightsOf layers)).Perm (List.range layers.length) := by
    refine (List.perm_insertionSort _ _).trans ?_
    rw [hlen]
  have hsorted0 : List.Sorted
      (fun i j => (heightsOf layers).getD j 0 ≤ (heightsOf layers).getD i 0)
      (argsortDescend (heightsOf layers)) := by
    haveI : IsTotal ℕ
        (fun i j => (heightsOf layers).getD j 0 ≤ (heightsOf layers).getD i 0) :=
      ⟨fun a b => le_total _ _⟩
    haveI : IsTrans ℕ
        (fun i j => (heightsOf layers).getD j 0 ≤ (heightsOf layers).getD i 0) :=
      ⟨fun a b c hab hbc => le_trans hbc hab⟩
    exact List.sorted_insertionSort _ _
  have hsorted : List.Sorted (· ≥ ·)
      ((argsortDescend (heightsOf layers)).map fun i => (layers.getD i default).height) := by
    refine List.Pairwise.map _ ?_ hsorted0
    intro a b hab
    rw [show (layers.getD a default).height = (heightsOf layers).getD a 0 from
      (heightsOf_getD layers a).symm]
    rw [show (layers.getD b default).height = (heightsOf layers).getD b 0 from
      (heightsOf_getD layers b).symm]
    exact hab
  have hfun : (fun i => (heightsOf layers).getD i 0)
      = fun i => (layers.getD i default).height := funext (heightsOf_getD layers)
  have hidxlen : (argsortDescend (heightsOf layers)).length = layers.length := by
    simpa using hperm.length_eq
  have hSLne : ((argsortDescend (heightsOf layers)).map fun i => layers.getD i default) ≠ [] := by
    refine List.length_pos.mp ?_
    rw [List.length_map, hidxlen]
    exact List.length_pos.mpr hne
  have hsortedmap : (argsortDescend (heightsOf layers)).map (fun i => (heightsOf layers).getD i 0)
      = ((argsortDescend (heightsOf layers)).map fun i => layers.getD i default).map (·.height) := by
    rw [hfun, List.map_map]
    rfl
  have hmain : calcElements layers scint
      = specElements layers.headI.input_grid
          ((argsortDescend (heightsOf layers)).map fun i => layers.getD i default) scint := by
    cases scint with
    | false =>
      simp only [calcElements, specElements, Bool.false_eq_true, if_false,
        List.append_nil]
      exact interleaveElems_nil_props _
    | true =>
      simp only [calcElements, specElements, eq_self_iff_true, if_true]
      rw [hsortedmap]
      rw [interleaveElems_deltas]
      congr 1
      rw [List.getLast?_map, List.getLast?_eq_getLast _ hSLne]
      rw [List.getLastD_eq_getLast?, List.getLast?_eq_getLast _ hSLne]
      rfl
  exact ⟨argsortDescend (heightsOf layers), hperm, hsorted, hmain⟩

/-- Witness for C1 on a single layer at height 1 with scintillation on
(the trailing ground propagator case). -/
theorem calculate_propagators_chain_witness :
    (([layerA] : List Layer) ≠ []) ∧
    (∃ idx : List ℕ,
      idx.Perm (List.range ([layerA] : List Layer).length) ∧
      List.Sorted (· ≥ ·)
        (idx.map fun i => (([layerA] : List Layer).getD i default).height) ∧
      calcElements [layerA] true
        = specElements ([layerA] : List Layer).headI.input_grid
            (idx.map fun i => ([layerA] : List Layer).getD i default) true) :=
  ⟨by simp, calculate_propagators_chain [layerA] true (by simp)⟩
